import Mathlib

/-!
# Verification of react-media-hooks media lifecycle, recorder and audio hooks

A shallow embedding of the media-hook library:

* the constraint specification and the device hash (`hashDeviceIds`) of
  `contextProviders/audioContextProvider.tsx` (lines 1375-1418);
* the stream lifecycle manager `useMediaStream`
  (`audioContextProvider.tsx` lines 1420-1485) including its
  `closeCurrentStream` teardown, modelled as a step relation over explicit
  manager states driven by React effect events (run / cleanup) and
  asynchronous `getUserMedia` resolutions;
* the recorder machine `useMediaRecorder` / `useBlobMediaRecorder`
  (`audioContextProvider.tsx` lines 1189-1338), modelled with an explicit
  platform event queue for `start` / `dataavailable` / `stop` events;
* `elapsedTime` / `useElapsedTime` (`hooks/media.ts` lines 15-56);
* `getVolume` / `useAudioLevel` (`hooks/audio.ts` lines 100-137);
* `useMediaDevices` enumeration and `useMediaPermissionsQuery`
  (`audioContextProvider.tsx` lines 256-320 and 1513-1545).

Timestamps are modelled at integer-millisecond granularity (`Date.now()`
values as `Nat`, `performance.now()` differences as `Int`), and audio
sample bytes as rationals, which is faithful for every property proved
here (none depends on fractional milliseconds or float rounding).
-/

namespace ReactMediaHooks

/-! ## Constraint specifications and the device hash

Source: `audioContextProvider.tsx` lines 1375-1418 (`hashDeviceId`,
`hashDeviceIds`).  A `deviceId` in `MediaTrackConstraints` is a
`ConstrainDOMString`: the repository uses either a plain string or a
`\x7bdeviceId: \x7bexact: id\x7d\x7d` descriptor, so we model those two forms;
`JSON.stringify` on the `exact` form is computed concretely. -/

/-- A `ConstrainDOMString` value as used by this repository: a plain device id
string, or an object `\x7bexact: id\x7d`. -/
inductive ConstrainId where
  | str (s : String)
  | exact (s : String)
deriving Repr, DecidableEq

/-- `JSON.stringify(\x7bexact: s\x7d)` — the object branch of `hashDeviceId`. -/
def jsonStringifyExact (s : String) : String :=
  "\x7b\"exact\":\"" ++ s ++ "\"\x7d"

/-- `hashDeviceId` (`audioContextProvider.tsx` 1375-1383): `null`/falsy ids map
to `null`, a string id maps to itself, an object maps to its JSON. `!deviceId`
in JS is also true for the empty string. -/
def hashDeviceId : Option ConstrainId → Option String
  | none => none
  | some (.str s) => if s = "" then none else some s
  | some (.exact s) => some (jsonStringifyExact s)

/-- One track constraint (`audio` / `video` field): a boolean, or an object
with an optional `deviceId`. -/
inductive TrackConstraint where
  | boolC (b : Bool)
  | objC (deviceId : Option ConstrainId)
deriving Repr, DecidableEq

/-- A `MediaStreamConstraints` object: optional `audio` and `video` fields. -/
structure MediaConstraints where
  audio : Option TrackConstraint
  video : Option TrackConstraint
deriving Repr, DecidableEq

/-- `constraints.audio || null`: JS `||` sends the falsy values (`undefined`,
`false`) to `null`. -/
def truthyTrack : Option TrackConstraint → Option TrackConstraint
  | some (.boolC false) => none
  | x => x

/-- `audioConstraints.deviceId || null`: a missing or falsy (empty-string)
device id becomes `null`. -/
def deviceIdOrNull : Option ConstrainId → Option ConstrainId
  | some (.str "") => none
  | x => x

/-- The per-track hash computed inside `hashDeviceIds`
(`audioContextProvider.tsx` 1385-1418): a boolean constraint hashes via
`toString()` (only `"true"` is reachable, `false` being filtered out as
falsy), an object constraint hashes its `deviceId || null`. -/
def trackHash (t : Option TrackConstraint) : Option String :=
  match truthyTrack t with
  | none => none
  | some (.boolC b) => hashDeviceId (some (.str (cond b "true" "false")))
  | some (.objC d) => hashDeviceId (deviceIdOrNull d)

/-- `hashDeviceIds` (`audioContextProvider.tsx` 1385-1418): the pair
`(audioIdHash, videoIdHash)`; `null` constraints give `(null, null)`. -/
def hashDeviceIds : Option MediaConstraints → Option String × Option String
  | none => (none, none)
  | some c => (trackHash c.audio, trackHash c.video)

/-- Whether switching `useMediaStream` from constraints `c1` to `c2` re-runs
the acquisition effect and hence issues a new stream request: the effect of
`useMediaStream` (`audioContextProvider.tsx` 1440-1482) depends exactly on
`[audioIdHash, videoIdHash]`, so React re-runs it iff the hash pair changed. -/
def effectRerun (c1 c2 : Option MediaConstraints) : Bool :=
  decide (hashDeviceIds c1 ≠ hashDeviceIds c2)

/-- Modelled from the spec: the *effective selected device identifier* of a
track constraint (spec §3: a boolean selects the default device; a descriptor
selects its device id; "boolean audio/video without a device id hashes to a
default-device marker").  Used only to state the equivalence claim about
matching effective devices; the code-side key is `hashDeviceIds`. -/
def specEffectiveDeviceId : Option TrackConstraint → Option String
  | none => none
  | some (.boolC false) => none
  | some (.boolC true) => some "default"
  | some (.objC d) =>
      match deviceIdOrNull d with
      | none => some "default"
      | some (.str s) => some s
      | some (.exact s) => some s

/-- Whether a track constraint lies in the spec's input grammar (§6:
absent, a boolean, or `\x7bdeviceId: \x7bexact: id\x7d\x7d`). -/
def specFormTrack : Option TrackConstraint → Bool
  | none => true
  | some (.boolC _) => true
  | some (.objC (some (.exact _))) => true
  | some (.objC _) => false

/-- Whether a track constraint actually requests a capture track. -/
def requestsTrack : Option TrackConstraint → Bool
  | some (.boolC true) => true
  | some (.objC _) => true
  | _ => false

/-- The boolean-audio constraint specification `\x7baudio: true\x7d`. -/
def audioTrueConstraints : Option MediaConstraints :=
  some { audio := some (.boolC true), video := none }

/-- The explicit default-device specification
`\x7baudio: \x7bdeviceId: "default"\x7d\x7d` (the platform id of the default device). -/
def audioDefaultConstraints : Option MediaConstraints :=
  some { audio := some (.objC (some (.str "default"))), video := none }

/-! ## The stream lifecycle manager

Source: `useMediaStream` at `audioContextProvider.tsx` 1420-1485 with its
`closeCurrentStream` helper (1431-1438) and `stopStream` (1367-1373).

State components mirror the hook's refs: `streamRef` holds the id of the
current stream (`streamRef.current`), `lastInit` the value of
`lastInitTimestampRef.current`.  Bookkeeping for the proofs: `pending` holds
the outstanding `getUserMedia` requests as (issuance timestamp, stream id)
pairs, `acquired` the ids of streams `getUserMedia` has delivered (hardware
opened), `stops` one entry per `track.stop()` sweep over a stream
(`stopStream` stops every track of its argument exactly once), and `exposed`
every id ever written to `streamRef.current` (i.e. ever returned as the
current stream). -/

/-- State of one `useMediaStream` instance. -/
structure MState where
  streamRef : Option Nat
  lastInit : Option Nat
  nextId : Nat
  pending : List (Nat × Nat)
  acquired : List Nat
  stops : List Nat
  exposed : List Nat
deriving Repr, DecidableEq

/-- The initial hook state: no stream, no timestamp, nothing pending. -/
def mInit : MState :=
  { streamRef := none, lastInit := none, nextId := 0,
    pending := [], acquired := [], stops := [], exposed := [] }

/-- `closeCurrentStream` (`audioContextProvider.tsx` 1431-1438):
null the timestamp; if a current stream exists, stop it and clear the ref. -/
def closeCurrentStream (s : MState) : MState :=
  { s with
    lastInit := none
    streamRef := none
    stops := match s.streamRef with
             | some id => id :: s.stops
             | none => s.stops }

/-- Events driving one `useMediaStream` instance.

* `run ts hasConstraints` — the effect body executes (React ran the effect
  because `[audioIdHash, videoIdHash]` changed, or on mount).  With
  constraints present it records `initTimestamp = Date.now() = ts` into
  `lastInitTimestampRef` and issues a `getUserMedia` request; with `null`
  constraints it calls `closeCurrentStream()`.
* `cleanup` — the effect cleanup (runs before the next effect body and on
  unmount): `closeCurrentStream()`.
* `resolve ts sid ok` — the `getUserMedia` promise for the request tagged
  `ts` settles; on success (`ok`) with `lastInitTimestampRef.current ===
  initTimestamp` the previous stream is stopped and `sid` becomes current,
  otherwise the freshly delivered stream is stopped without being stored;
  on rejection the catch handler only logs. -/
inductive MEvent where
  | run (ts : Nat) (hasConstraints : Bool)
  | cleanup
  | resolve (ts sid : Nat) (ok : Bool)
deriving Repr, DecidableEq

/-- Whether an event is a promise resolution (no React effect activity). -/
def MEvent.isResolution : MEvent → Bool
  | .resolve _ _ _ => true
  | _ => false

/-- One step of the `useMediaStream` effect machinery
(`audioContextProvider.tsx` 1440-1482). -/
def mStep (s : MState) : MEvent → MState
  | .run ts true =>
      { s with
        lastInit := some ts
        pending := (ts, s.nextId) :: s.pending
        nextId := s.nextId + 1 }
  | .run _ false => closeCurrentStream s
  | .cleanup => closeCurrentStream s
  | .resolve ts sid ok =>
      if (ts, sid) ∈ s.pending then
        if ok then
          if s.lastInit = some ts then
            { s with
              pending := s.pending.erase (ts, sid)
              acquired := sid :: s.acquired
              stops := match s.streamRef with
                       | some old => old :: s.stops
                       | none => s.stops
              streamRef := some sid
              exposed := sid :: s.exposed }
          else
            { s with
              pending := s.pending.erase (ts, sid)
              acquired := sid :: s.acquired
              stops := sid :: s.stops }
        else
          { s with pending := s.pending.erase (ts, sid) }
      else s

/-- Run the manager from the initial state over a trace of events. -/
def mExec (t : List MEvent) : MState :=
  t.foldl mStep mInit

/-- Number of times the tracks of stream `id` have been stopped. -/
def stopCount (s : MState) (id : Nat) : Nat :=
  s.stops.count id

/-- The inductive invariant of the stream manager. -/
structure MInv (s : MState) : Prop where
  cur_acquired : ∀ id, s.streamRef = some id → id ∈ s.acquired
  cur_unstopped : ∀ id, s.streamRef = some id → stopCount s id = 0
  active_is_cur : ∀ id ∈ s.acquired, stopCount s id = 0 → s.streamRef = some id
  stop_le_one : ∀ id, stopCount s id ≤ 1
  stops_acquired : ∀ id ∈ s.stops, id ∈ s.acquired
  pending_lt : ∀ p ∈ s.pending, p.2 < s.nextId
  pending_fresh : ∀ p ∈ s.pending, p.2 ∉ s.acquired
  pending_nodup : s.pending.Nodup
  pending_snd_inj : ∀ p ∈ s.pending, ∀ q ∈ s.pending, p.2 = q.2 → p = q
  acquired_lt : ∀ id ∈ s.acquired, id < s.nextId

/-- Fixed two-request race used for the last-request-wins analysis:
mount with constraints at `ts1` (request R1, stream id 0), constraints change
(cleanup, then effect body at `ts2` issuing R2, stream id 1), R2 resolves
first, R1 resolves second. -/
def raceTrace (ts1 ts2 : Nat) : List MEvent :=
  [.run ts1 true, .cleanup, .run ts2 true,
   .resolve ts2 1 true, .resolve ts1 0 true]

/-- Constraint-change trace used for the supersession-timing analysis:
mount at `ts1`, the request resolves (stream id 0 becomes current and live),
then the constraints change to a new equivalence class: React runs the
cleanup and then the new effect body at `ts2` (request R2 now pending). -/
def supersedeTrace (ts1 ts2 : Nat) : List MEvent :=
  [.run ts1 true, .resolve ts1 0 true, .cleanup, .run ts2 true]

/-! ## The recorder state machine

Source: `useMediaRecorder` (`audioContextProvider.tsx` 1189-1266) and
`useBlobMediaRecorder` (1268-1338).

The platform `MediaRecorder` objects are identified by creation index; their
`state` ("recording" / "inactive") lives in `recStates` (index = recorder
id).  `MediaRecorder.stop()` on a recording recorder synchronously moves it
to inactive and queues a final `dataavailable` followed by `stop`;
`MediaRecorder.start()` moves it to recording and queues `start` — events
fire in FIFO order.  A blob is the list of buffered chunk ids combined at
`stop` time. -/

/-- The `RecordedMediaResult` of `useBlobMediaRecorder`: `startTime` is the
`timeStamp` of the `start` event (or `null`), `blobs` the finalized
artifacts, each a combination of the chunk ids delivered to it. -/
structure RecResult where
  startTime : Option Nat
  blobs : List (List Nat)
deriving Repr, DecidableEq

/-- A queued platform `MediaRecorder` event: `started rid ts` (the `start`
event with its `timeStamp`), `data rid c` (a `dataavailable` delivery of
chunk `c`), `stopped rid` (the `stop` event). -/
inductive PEvent where
  | started (rid ts : Nat)
  | data (rid c : Nat)
  | stopped (rid : Nat)
deriving Repr, DecidableEq

/-- State of one `useBlobMediaRecorder` instance together with its platform
recorders. `mediaRecorderRef` / `prevRecorderRef` mirror the two refs of
`useMediaRecorder`; `chunksRef` is the chunk buffer of
`useBlobMediaRecorder`; `committed` is the dependency pair `[stream,
isRecording]` of the last executed effect; `cleanupArmed` records whether
that effect registered a cleanup (it returns early, registering none, when
the stream was `null`). -/
structure RecSys where
  mediaRecorderRef : Option Nat
  prevRecorderRef : Option Nat
  recStates : List Bool
  chunksRef : List Nat
  result : RecResult
  queue : List PEvent
  nextChunk : Nat
  committed : Option (Option Nat × Bool)
  cleanupArmed : Bool
deriving Repr, DecidableEq

/-- Initial state: no recorder, empty result (`\x7bstartTime: null, blobs: []\x7d`),
effect not yet run. -/
def recInit : RecSys :=
  { mediaRecorderRef := none, prevRecorderRef := none, recStates := [],
    chunksRef := [], result := { startTime := none, blobs := [] },
    queue := [], nextChunk := 0, committed := none, cleanupArmed := false }

/-- `MediaRecorder.stop()` on recorder `rid`: if it is not recording this is
a no-op (the platform aborts); otherwise its state becomes inactive and a
final `dataavailable` (the buffered tail chunk) and the `stop` event are
queued. -/
def stopRecorder (s : RecSys) (rid : Nat) : RecSys :=
  if s.recStates.getD rid false then
    { s with
      recStates := s.recStates.set rid false
      queue := s.queue ++ [.data rid s.nextChunk, .stopped rid]
      nextChunk := s.nextChunk + 1 }
  else s

/-- The effect cleanup of `useMediaRecorder` (1258-1263): if a cleanup was
registered and the current recorder is recording, stop it. -/
def recCleanup (s : RecSys) : RecSys :=
  if s.cleanupArmed then
    match s.mediaRecorderRef with
    | some rid => stopRecorder s rid
    | none => s
  else s

/-- The effect body of `useMediaRecorder` (1204-1255): with no stream return
early (registering no cleanup); while `isRecording`, stash the current
recorder in `previousMediaRecorderRef`, create a fresh recorder bound to the
stream and start it; otherwise stop and drop the current recorder. -/
def recBody (s : RecSys) (stream : Option Nat) (isRec : Bool) (now : Nat) :
    RecSys :=
  match stream with
  | none => { s with cleanupArmed := false }
  | some _ =>
      let s := { s with cleanupArmed := true }
      if isRec then
        let rid := s.recStates.length
        { s with
          prevRecorderRef := s.mediaRecorderRef
          mediaRecorderRef := some rid
          recStates := s.recStates ++ [true]
          queue := s.queue ++ [.started rid now] }
      else
        match s.mediaRecorderRef with
        | some rid => { stopRecorder s rid with mediaRecorderRef := none }
        | none => s

/-- React reconciliation of the `[stream, isRecording]` effect: when the
dependencies changed, run the previous cleanup and then the new body. -/
def recReconcile (s : RecSys) (stream : Option Nat) (isRec : Bool)
    (now : Nat) : RecSys :=
  if s.committed = some (stream, isRec) then s
  else
    { recBody (recCleanup s) stream isRec now with
      committed := some (stream, isRec) }

/-- Deliver one queued platform event to the listeners registered by
`useMediaRecorder` with the `useBlobMediaRecorder` callbacks:

* `start` (1219-1235): `isResuming` is `previousMediaRecorderRef.current !==
  null`; `onResume` (1306-1309) only resets the chunk buffer, while
  `onStart` (1295-1304) resets the buffer and the whole result with the
  event's `timeStamp`;
* `dataavailable` (1290-1293): push the chunk;
* `stop` (1311-1325): combine the buffered chunks into one blob and append
  it, keeping `startTime`. -/
def recHandle (s : RecSys) : PEvent → RecSys
  | .started _ ts =>
      if s.prevRecorderRef ≠ none then { s with chunksRef := [] }
      else
        { s with
          chunksRef := []
          result := { startTime := some ts, blobs := [] } }
  | .data _ c => { s with chunksRef := s.chunksRef ++ [c] }
  | .stopped _ =>
      { s with
        result := { startTime := s.result.startTime
                    blobs := s.result.blobs ++ [s.chunksRef] } }

/-- Fire all queued platform events in order. -/
def drainQueue (s : RecSys) : RecSys :=
  s.queue.foldl recHandle { s with queue := [] }

/-- Start a fresh recording on stream 0: the recording flag becomes true at
time `t0` and the queued `start` event fires. -/
def startRecording (t0 : Nat) : RecSys :=
  drainQueue (recReconcile recInit (some 0) true t0)

/-- Replace the stream with `k` while still recording at time `t`: React
re-runs the effect (cleanup stops the old session, body starts a new one)
and the queued platform events fire. -/
def replaceStream (s : RecSys) (k t : Nat) : RecSys :=
  drainQueue (recReconcile s (some k) true t)

/-- The recording after `n` stream replacements, having started at `t0`:
replacement `i` switches to stream `i` at time `t0 + i`. -/
def afterReplacements (t0 : Nat) : Nat → RecSys
  | 0 => startRecording t0
  | n + 1 => replaceStream (afterReplacements t0 n) (n + 1) (t0 + n + 1)

/-- End the recording: the flag becomes false while the stream stays `n`,
and the queued platform events fire. -/
def stopRecording (t0 n : Nat) : RecSys :=
  drainQueue (recReconcile (afterReplacements t0 n) (some n) false
    (t0 + n + 2))

/-- Closed form of the state after `n` replacements (helper for the
induction): recorder `n` is the only one recording, the chunk buffer is
empty, and the result holds `startTime = t0` with one flushed artifact per
completed replacement. -/
def recNthState (t0 n : Nat) : RecSys :=
  { mediaRecorderRef := some n
    prevRecorderRef := match n with
                       | 0 => none
                       | m + 1 => some m
    recStates := List.replicate n false ++ [true]
    chunksRef := []
    result := { startTime := some t0
                blobs := (List.range n).map (fun k => [k]) }
    queue := []
    nextChunk := n
    committed := some (some n, true)
    cleanupArmed := true }

/-! ## Elapsed time

Source: `elapsedTime` (`hooks/media.ts` 15-32) and `useElapsedTime` (39-56)
with `useInterval` (`hooks/interval.ts`).  JS `Math.floor` of a real
division is `Int.fdiv` on integers, and JS `%` is the truncating remainder
`Int.tmod`; `!result.startTime` is true both for `null` and for the number
`0`. -/

/-- The `\x7belapsed, minutes, seconds, millis\x7d` view. -/
structure ElapsedView where
  elapsed : Int
  minutes : Int
  seconds : Int
  millis : Int
deriving Repr, DecidableEq

/-- The all-zero view returned when there is no (truthy) start marker. -/
def zeroView : ElapsedView :=
  { elapsed := 0, minutes := 0, seconds := 0, millis := 0 }

/-- JS truthiness of a `number | null` start marker: `null` and `0` are
falsy. -/
def startTruthy : Option Nat → Bool
  | none => false
  | some 0 => false
  | some (_ + 1) => true

/-- `elapsedTime(result?)` (`hooks/media.ts` 15-32) at current time `now`
(`performance.now()`): the guard is `!result || !result.startTime`. -/
def elapsedTime (result : Option RecResult) (now : Nat) : ElapsedView :=
  match result with
  | none => zeroView
  | some r =>
      if startTruthy r.startTime then
        match r.startTime with
        | none => zeroView
        | some t =>
            let e : Int := (now : Int) - (t : Int)
            { elapsed := e
              minutes := Int.fdiv e 60000
              seconds := Int.fdiv (Int.tmod e 60000) 1000
              millis := Int.tmod e 1000 }
      else zeroView

/-- One potential tick of `useElapsedTime` (`hooks/media.ts` 39-56): the
`useInterval` delay is `isRecording ? updateInterval : null` and a `null`
delay schedules no callback at all, so the state can only change when
recording with a non-null interval; the callback itself updates the state
only when `result.startTime` is truthy. -/
def elapsedTick (result : RecResult) (isRecording : Bool)
    (updateInterval : Option Nat) (st : ElapsedView) (now : Nat) :
    ElapsedView :=
  if isRecording ∧ updateInterval ≠ none then
    if startTruthy result.startTime then elapsedTime (some result) now
    else st
  else st

/-! ## Audio level

Source: `getVolume` (`hooks/audio.ts` 100-105) and `useAudioLevel`
(110-137).  The analyser's byte frequency data is a `Uint8Array` of length
`frequencyBinCount` (= `fftSize / 2` ≥ 16, never empty); its entries are
bytes.  `Array.prototype.reduce` with no initial value throws on an empty
array, which we model by returning `none`. -/

/-- `dataArray.reduce((a, b) => a + b)`: JS reduce without an initial value
(throws — `none` — on the empty array). -/
def jsReduceAdd : List ℚ → Option ℚ
  | [] => none
  | x :: xs => some (xs.foldl (· + ·) x)

/-- `getVolume` (`hooks/audio.ts` 100-105): the average of the byte
frequency data. -/
def getVolume (dataArray : List ℚ) : Option ℚ :=
  (jsReduceAdd dataArray).map (fun sum => sum / (dataArray.length : ℚ))

/-- One tick of `useAudioLevel` (`hooks/audio.ts` 124-134): with no analyser
the level is 0, otherwise `getVolume(analyser) / 255`.  The analyser is
represented by the byte frequency data it would deliver. -/
def audioLevelTick (analyserData : Option (List ℚ)) (timestamp : Nat) :
    Option (ℚ × Nat) :=
  match analyserData with
  | none => some (0, timestamp)
  | some d => (getVolume d).map (fun v => (v / 255, timestamp))

/-! ## Device enumeration and permission queries

Source: `useMediaDevices` (`audioContextProvider.tsx` 256-320) and
`useMediaPermissionsQuery` (1513-1545). -/

/-- A `MediaDeviceInfo` entry. -/
structure DeviceInfo where
  deviceId : String
  kind : String
  label : String
deriving Repr, DecidableEq

/-- The three device lists of `useMediaDevices`. -/
structure DeviceLists where
  audioInput : List DeviceInfo
  videoInput : List DeviceInfo
  audioOutput : List DeviceInfo
deriving Repr, DecidableEq

/-- The `useState` initializer of `useMediaDevices` (257-265): all lists
empty. -/
def emptyDeviceLists : DeviceLists :=
  { audioInput := [], videoInput := [], audioOutput := [] }

/-- The async effect body of `useMediaDevices` (270-301): start from the
empty lists, try `enumerateDevices()` and filter by kind; on failure log
(the `Bool` component) and keep the empty lists.  The returned value is
always passed to `setDevices`, never thrown. -/
def enumerationResult (outcome : Except String (List DeviceInfo)) :
    DeviceLists × Bool :=
  match outcome with
  | .error _ => (emptyDeviceLists, true)
  | .ok devices =>
      ({ audioInput := devices.filter (fun d => d.kind = "audioinput")
         videoInput := devices.filter (fun d => d.kind = "videoinput")
         audioOutput := devices.filter (fun d => d.kind = "audiooutput") },
       false)

/-- The observable permission state of one capability in
`useMediaPermissionsQuery`: `null` before the query settles, a
`PermissionState`, or `"unsupported"`. -/
inductive PermValue where
  | notYetSettled
  | granted
  | denied
  | prompt
  | unsupported
deriving Repr, DecidableEq

/-- How one `navigator.permissions.query` settlement updates the state
(`audioContextProvider.tsx` 1521-1542): `.then` stores the reported state,
`.catch` stores `"unsupported"`. -/
def permQuerySettle (outcome : Except String PermValue) : PermValue :=
  match outcome with
  | .ok st => st
  | .error _ => .unsupported

/-! ## Stream manager lemmas -/

theorem stopCount_closeCurrent (s : MState) (id : Nat) :
    stopCount (closeCurrentStream s) id =
      stopCount s id + (if s.streamRef = some id then 1 else 0) := by
  cases hsr : s.streamRef with
  | none => simp [closeCurrentStream, hsr, stopCount]
  | some cur =>
      by_cases hc : cur = id <;>
        simp [closeCurrentStream, hsr, stopCount, List.count_cons, hc]

theorem mem_stops_closeCurrent {s : MState} {id : Nat} :
    id ∈ (closeCurrentStream s).stops ↔
      s.streamRef = some id ∨ id ∈ s.stops := by
  cases hsr : s.streamRef with
  | none => simp [closeCurrentStream, hsr]
  | some cur => simp [closeCurrentStream, hsr, eq_comm]

theorem mInv_init : MInv mInit := by
  constructor <;> simp [mInit, stopCount]

theorem mInv_closeCurrent {s : MState} (h : MInv s) :
    MInv (closeCurrentStream s) := by
  refine ⟨?_, ?_, ?_, ?_, ?_, ?_, ?_, ?_, ?_, ?_⟩
  · intro id hid; simp [closeCurrentStream] at hid
  · intro id hid; simp [closeCurrentStream] at hid
  · intro id hacq hcnt
    exfalso
    rw [stopCount_closeCurrent] at hcnt
    have hacq' : id ∈ s.acquired := hacq
    have h1 : stopCount s id = 0 := by omega
    have h2 : s.streamRef ≠ some id := by
      intro hh; rw [if_pos hh] at hcnt; omega
    exact h2 (h.active_is_cur id hacq' h1)
  · intro id
    rw [stopCount_closeCurrent]
    by_cases hh : s.streamRef = some id
    · rw [if_pos hh]
      have := h.cur_unstopped id hh
      omega
    · rw [if_neg hh]
      have := h.stop_le_one id
      omega
  · intro id hid
    rcases mem_stops_closeCurrent.mp hid with hh | hh
    · exact h.cur_acquired id hh
    · exact h.stops_acquired id hh
  · exact h.pending_lt
  · exact h.pending_fresh
  · exact h.pending_nodup
  · exact h.pending_snd_inj
  · exact h.acquired_lt

theorem mStep_run_true (s : MState) (ts : Nat) :
    mStep s (.run ts true) =
      { s with lastInit := some ts,
               pending := (ts, s.nextId) :: s.pending,
               nextId := s.nextId + 1 } := rfl

theorem mStep_resolve_commit {s : MState} {ts sid : Nat}
    (hmem : (ts, sid) ∈ s.pending) (hli : s.lastInit = some ts) :
    mStep s (.resolve ts sid true) =
      { s with pending := s.pending.erase (ts, sid),
               acquired := sid :: s.acquired,
               stops := match s.streamRef with
                        | some old => old :: s.stops
                        | none => s.stops,
               streamRef := some sid,
               exposed := sid :: s.exposed } := by
  simp only [mStep]
  rw [if_pos hmem, if_pos trivial, if_pos hli]

theorem mStep_resolve_stale {s : MState} {ts sid : Nat}
    (hmem : (ts, sid) ∈ s.pending) (hli : s.lastInit ≠ some ts) :
    mStep s (.resolve ts sid true) =
      { s with pending := s.pending.erase (ts, sid),
               acquired := sid :: s.acquired,
               stops := sid :: s.stops } := by
  simp only [mStep]
  rw [if_pos hmem, if_pos trivial, if_neg hli]

theorem mStep_resolve_reject {s : MState} {ts sid : Nat}
    (hmem : (ts, sid) ∈ s.pending) :
    mStep s (.resolve ts sid false) =
      { s with pending := s.pending.erase (ts, sid) } := by
  simp only [mStep]
  rw [if_pos hmem, if_neg (by simp : ¬ (false = true))]

theorem mStep_resolve_skip {s : MState} {ts sid : Nat} {ok : Bool}
    (hmem : (ts, sid) ∉ s.pending) :
    mStep s (.resolve ts sid ok) = s := by
  simp only [mStep]
  rw [if_neg hmem]

theorem mInv_run_true {s : MState} (h : MInv s) (ts : Nat) :
    MInv (mStep s (.run ts true)) := by
  rw [mStep_run_true]
  refine ⟨h.cur_acquired, h.cur_unstopped, h.active_is_cur,
    h.stop_le_one, h.stops_acquired, ?_, ?_, ?_, ?_, ?_⟩
  · intro p hp
    show p.2 < s.nextId + 1
    rcases List.mem_cons.mp hp with rfl | hp'
    · simp
    · have := h.pending_lt p hp'; omega
  · intro p hp
    rcases List.mem_cons.mp hp with rfl | hp'
    · intro hmem
      have : s.nextId < s.nextId := h.acquired_lt _ hmem
      omega
    · exact h.pending_fresh p hp'
  · refine List.nodup_cons.mpr ⟨?_, h.pending_nodup⟩
    intro hmem
    have : s.nextId < s.nextId := h.pending_lt _ hmem
    omega
  · intro p hp q hq hpq
    rcases List.mem_cons.mp hp with rfl | hp' <;>
      rcases List.mem_cons.mp hq with rfl | hq'
    · rfl
    · exfalso
      have : q.2 < s.nextId := h.pending_lt q hq'
      simp only [← hpq] at this
      omega
    · exfalso
      have : p.2 < s.nextId := h.pending_lt p hp'
      simp only [hpq] at this
      omega
    · exact h.pending_snd_inj p hp' q hq' hpq
  · intro id hid
    show id < s.nextId + 1
    have := h.acquired_lt id hid
    omega

theorem mInv_resolve_stale {s : MState} (h : MInv s) {ts sid : Nat}
    (hmem : (ts, sid) ∈ s.pending) (hli : s.lastInit ≠ some ts) :
    MInv (mStep s (.resolve ts sid true)) := by
  have hfresh : sid ∉ s.acquired := h.pending_fresh _ hmem
  have hnostop : sid ∉ s.stops := fun hs => hfresh (h.stops_acquired _ hs)
  have hcur : s.streamRef ≠ some sid :=
    fun hc => hfresh (h.cur_acquired _ hc)
  have herase : ∀ p ∈ s.pending.erase (ts, sid),
      p ∈ s.pending ∧ p.2 ≠ sid := by
    intro p hp
    have hp' := List.mem_of_mem_erase hp
    refine ⟨hp', fun hsnd => ?_⟩
    have hpeq : p = (ts, sid) :=
      h.pending_snd_inj p hp' (ts, sid) hmem hsnd
    exact (h.pending_nodup.not_mem_erase) (hpeq ▸ hp)
  rw [mStep_resolve_stale hmem hli]
  refine ⟨?_, ?_, ?_, ?_, ?_, ?_, ?_, h.pending_nodup.erase _, ?_, ?_⟩
  · intro id hid
    exact List.mem_cons_of_mem _ (h.cur_acquired id hid)
  · intro id hid
    have hne : ¬ (sid = id) := fun hh => hcur (hh ▸ hid)
    show (sid :: s.stops).count id = 0
    have h0 : s.stops.count id = 0 := h.cur_unstopped id hid
    simp [List.count_cons, h0, hne]
  · intro id hacq hcnt
    have hcnt' : (sid :: s.stops).count id = 0 := hcnt
    rcases List.mem_cons.mp hacq with rfl | hacq'
    · exfalso
      simp [List.count_cons] at hcnt'
    · have h0 : stopCount s id = 0 := by
        simp only [stopCount]
        simp [List.count_cons] at hcnt'
        exact hcnt'.1
      exact h.active_is_cur id hacq' h0
  · intro id
    show (sid :: s.stops).count id ≤ 1
    by_cases hsid : sid = id
    · subst hsid
      have h0 : s.stops.count sid = 0 := List.count_eq_zero.mpr hnostop
      simp [List.count_cons, h0]
    · have := h.stop_le_one id
      simp only [stopCount] at this
      simp [List.count_cons, hsid, this]
  · intro id hid
    rcases List.mem_cons.mp hid with rfl | hid'
    · exact List.mem_cons_self _ _
    · exact List.mem_cons_of_mem _ (h.stops_acquired id hid')
  · intro p hp; exact h.pending_lt p (herase p hp).1
  · intro p hp hmemacq
    rcases List.mem_cons.mp hmemacq with hh | hh
    · exact (herase p hp).2 hh
    · exact h.pending_fresh p (herase p hp).1 hh
  · intro p hp q hq
    exact h.pending_snd_inj p (herase p hp).1 q (herase q hq).1
  · intro id hid
    rcases List.mem_cons.mp hid with rfl | hid'
    · exact h.pending_lt _ hmem
    · exact h.acquired_lt id hid'

theorem mInv_resolve_commit {s : MState} (h : MInv s) {ts sid : Nat}
    (hmem : (ts, sid) ∈ s.pending) (hli : s.lastInit = some ts) :
    MInv (mStep s (.resolve ts sid true)) := by
  have hfresh : sid ∉ s.acquired := h.pending_fresh _ hmem
  have hnostop : sid ∉ s.stops := fun hs => hfresh (h.stops_acquired _ hs)
  have herase : ∀ p ∈ s.pending.erase (ts, sid),
      p ∈ s.pending ∧ p.2 ≠ sid := by
    intro p hp
    have hp' := List.mem_of_mem_erase hp
    refine ⟨hp', fun hsnd => ?_⟩
    have hpeq : p = (ts, sid) :=
      h.pending_snd_inj p hp' (ts, sid) hmem hsnd
    exact (h.pending_nodup.not_mem_erase) (hpeq ▸ hp)
  rw [mStep_resolve_commit hmem hli]
  cases hsr : s.streamRef with
  | none =>
      refine ⟨?_, ?_, ?_, ?_, ?_, ?_, ?_, h.pending_nodup.erase _, ?_, ?_⟩
      · intro id hid
        have h1 : sid = id := Option.some.inj hid
        rw [← h1]
        exact List.mem_cons_self _ _
      · intro id hid
        have h1 : sid = id := Option.some.inj hid
        show s.stops.count id = 0
        rw [← h1]
        exact List.count_eq_zero.mpr hnostop
      · intro id hacq hcnt
        rcases List.mem_cons.mp hacq with rfl | hacq'
        · rfl
        · exfalso
          have hcnt' : s.stops.count id = 0 := hcnt
          have hC := h.active_is_cur id hacq' hcnt'
          rw [hsr] at hC
          exact Option.noConfusion hC
      · intro id
        show s.stops.count id ≤ 1
        exact h.stop_le_one id
      · intro id hid
        have hid' : id ∈ s.stops := hid
        exact List.mem_cons_of_mem _ (h.stops_acquired id hid')
      · intro p hp; exact h.pending_lt p (herase p hp).1
      · intro p hp hmemacq
        rcases List.mem_cons.mp hmemacq with hh | hh
        · exact (herase p hp).2 hh
        · exact h.pending_fresh p (herase p hp).1 hh
      · intro p hp q hq
        exact h.pending_snd_inj p (herase p hp).1 q (herase q hq).1
      · intro id hid
        rcases List.mem_cons.mp hid with rfl | hid'
        · exact h.pending_lt _ hmem
        · exact h.acquired_lt id hid'
  | some old =>
      have hold_acq : old ∈ s.acquired := h.cur_acquired old hsr
      have hold_ne : old ≠ sid := fun hh => hfresh (hh ▸ hold_acq)
      have hold0 : s.stops.count old = 0 := h.cur_unstopped old hsr
      refine ⟨?_, ?_, ?_, ?_, ?_, ?_, ?_, h.pending_nodup.erase _, ?_, ?_⟩
      · intro id hid
        have h1 : sid = id := Option.some.inj hid
        rw [← h1]
        exact List.mem_cons_self _ _
      · intro id hid
        have h1 : sid = id := Option.some.inj hid
        show (old :: s.stops).count id = 0
        rw [← h1]
        have h0 : s.stops.count sid = 0 := List.count_eq_zero.mpr hnostop
        simp [List.count_cons, h0, hold_ne]
      · intro id hacq hcnt
        rcases List.mem_cons.mp hacq with rfl | hacq'
        · rfl
        · exfalso
          have hcnt' : (old :: s.stops).count id = 0 := hcnt
          simp only [List.count_cons] at hcnt'
          have hz : s.stops.count id = 0 := by omega
          have hC := h.active_is_cur id hacq' hz
          rw [hsr, Option.some.injEq] at hC
          rw [hC] at hcnt'
          simp at hcnt'
      · intro id
        show (old :: s.stops).count id ≤ 1
        by_cases hoid : old = id
        · rw [← hoid]
          simp [List.count_cons, hold0]
        · have h2 : s.stops.count id ≤ 1 := h.stop_le_one id
          simp [List.count_cons, hoid, h2]
      · intro id hid
        have hid' : id ∈ old :: s.stops := hid
        rcases List.mem_cons.mp hid' with rfl | hid''
        · exact List.mem_cons_of_mem _ hold_acq
        · exact List.mem_cons_of_mem _ (h.stops_acquired id hid'')
      · intro p hp; exact h.pending_lt p (herase p hp).1
      · intro p hp hmemacq
        rcases List.mem_cons.mp hmemacq with hh | hh
        · exact (herase p hp).2 hh
        · exact h.pending_fresh p (herase p hp).1 hh
      · intro p hp q hq
        exact h.pending_snd_inj p (herase p hp).1 q (herase q hq).1
      · intro id hid
        rcases List.mem_cons.mp hid with rfl | hid'
        · exact h.pending_lt _ hmem
        · exact h.acquired_lt id hid'

theorem mInv_step {s : MState} (h : MInv s) (e : MEvent) :
    MInv (mStep s e) := by
  cases e with
  | cleanup => exact mInv_closeCurrent h
  | run ts hc =>
      cases hc with
      | false => exact mInv_closeCurrent h
      | true => exact mInv_run_true h ts
  | resolve ts sid ok =>
      by_cases hmem : (ts, sid) ∈ s.pending
      · cases ok with
        | false =>
            rw [mStep_resolve_reject hmem]
            have herase : ∀ p ∈ s.pending.erase (ts, sid),
                p ∈ s.pending := fun p hp => List.mem_of_mem_erase hp
            refine ⟨h.cur_acquired, h.cur_unstopped, h.active_is_cur,
              h.stop_le_one, h.stops_acquired, ?_, ?_,
              h.pending_nodup.erase _, ?_, h.acquired_lt⟩
            · intro p hp; exact h.pending_lt p (herase p hp)
            · intro p hp; exact h.pending_fresh p (herase p hp)
            · intro p hp q hq
              exact h.pending_snd_inj p (herase p hp) q (herase q hq)
        | true =>
            by_cases hli : s.lastInit = some ts
            · exact mInv_resolve_commit h hmem hli
            · exact mInv_resolve_stale h hmem hli
      · rw [mStep_resolve_skip hmem]
        exact h

theorem mInv_foldl {s : MState} (h : MInv s) (t : List MEvent) :
    MInv (t.foldl mStep s) := by
  induction t generalizing s with
  | nil => exact h
  | cons e t ih => exact ih (mInv_step h e)

theorem mInv_mExec (t : List MEvent) : MInv (mExec t) :=
  mInv_foldl mInv_init t

theorem mStep_resolve_noInit {s : MState} {ts sid : Nat} {ok : Bool}
    (hli : s.lastInit = none) :
    (mStep s (.resolve ts sid ok)).streamRef = s.streamRef ∧
    (mStep s (.resolve ts sid ok)).lastInit = none ∧
    (mStep s (.resolve ts sid ok)).exposed = s.exposed := by
  by_cases hmem : (ts, sid) ∈ s.pending
  · cases ok with
    | false => rw [mStep_resolve_reject hmem]; exact ⟨rfl, hli, rfl⟩
    | true =>
        have hne : s.lastInit ≠ some ts := by rw [hli]; simp
        rw [mStep_resolve_stale hmem hne]
        exact ⟨rfl, hli, rfl⟩
  · rw [mStep_resolve_skip hmem]; exact ⟨rfl, hli, rfl⟩

theorem resolves_foldl {s : MState} (hli : s.lastInit = none)
    (u : List MEvent) (hu : ∀ e ∈ u, e.isResolution = true) :
    (u.foldl mStep s).streamRef = s.streamRef ∧
    (u.foldl mStep s).lastInit = none ∧
    (u.foldl mStep s).exposed = s.exposed := by
  induction u generalizing s with
  | nil => exact ⟨rfl, hli, rfl⟩
  | cons e u ih =>
      cases e with
      | run ts hc =>
          simpa [MEvent.isResolution] using hu _ (List.mem_cons_self _ _)
      | cleanup =>
          simpa [MEvent.isResolution] using hu _ (List.mem_cons_self _ _)
      | resolve ts sid ok =>
          have hstep := @mStep_resolve_noInit s ts sid ok hli
          have hrest := ih hstep.2.1 (fun e he => hu e (List.mem_cons_of_mem _ he))
          refine ⟨?_, hrest.2.1, ?_⟩
          · rw [List.foldl_cons, hrest.1, hstep.1]
          · rw [List.foldl_cons, hrest.2.2, hstep.2.2]

/-! ## Recorder lemmas -/

theorem getD_replicate_append_true (n : Nat) :
    (List.replicate n false ++ [true]).getD n false = true := by
  induction n with
  | zero => rfl
  | succ n ih => simp [List.replicate_succ, ih]

theorem getD_replicate_false (n m : Nat) :
    (List.replicate n false).getD m false = false := by
  rcases Nat.lt_or_ge m n with h | h
  · simp [List.getD_eq_getElem?_getD, List.getElem?_replicate, h]
  · simp [List.getD_eq_getElem?_getD, List.getElem?_replicate,
      Nat.not_lt.mpr h]

theorem set_replicate_append_true (n : Nat) :
    (List.replicate n false ++ [true]).set n false =
      List.replicate (n + 1) false := by
  induction n with
  | zero => rfl
  | succ n ih =>
      simp only [List.replicate_succ, List.cons_append, List.set_cons_succ]
      rw [ih]
      rfl

theorem startRecording_eq (t0 : Nat) :
    startRecording t0 = recNthState t0 0 := rfl

theorem recCleanup_nth (t0 n : Nat) :
    recCleanup (recNthState t0 n) =
      { recNthState t0 n with
        recStates := List.replicate (n + 1) false
        queue := [.data n n, .stopped n]
        nextChunk := n + 1 } := by
  simp [recCleanup, recNthState, stopRecorder, getD_replicate_append_true,
    set_replicate_append_true, List.replicate_succ']

theorem replaceStream_eq (t0 n t : Nat) :
    replaceStream (recNthState t0 n) (n + 1) t = recNthState t0 (n + 1) := by
  have hcom : (recNthState t0 n).committed ≠ some ((some (n + 1) : Option Nat), true) := by
    simp [recNthState]
  rw [replaceStream, recReconcile, if_neg hcom, recCleanup_nth]
  simp only [recBody]
  rw [if_pos trivial]
  simp only [List.length_replicate]
  simp [drainQueue, recHandle, recNthState, List.range_succ,
    List.replicate_succ']

theorem afterReplacements_eq (t0 n : Nat) :
    afterReplacements t0 n = recNthState t0 n := by
  induction n with
  | zero => exact startRecording_eq t0
  | succ n ih =>
      rw [afterReplacements, ih]
      exact replaceStream_eq t0 n _

theorem stopRecording_result (t0 n : Nat) :
    (stopRecording t0 n).result =
      { startTime := some t0
        blobs := (List.range n).map (fun k => [k]) ++ [[n]] } := by
  rw [stopRecording, afterReplacements_eq]
  have hcom : (recNthState t0 n).committed ≠ some ((some n : Option Nat), false) := by
    simp [recNthState]
  rw [recReconcile, if_neg hcom, recCleanup_nth]
  simp only [recBody]
  simp [drainQueue, recHandle, recNthState, stopRecorder,
    getD_replicate_false]

/-- A spec-form track constraint that requests a track always derives a
non-null hash, so nulling the constraints changes the dependency pair. -/
theorem trackHash_ne_none {t : Option TrackConstraint}
    (hf : specFormTrack t = true) (hr : requestsTrack t = true) :
    trackHash t ≠ none := by
  match t with
  | none => simp [requestsTrack] at hr
  | some (.boolC false) => simp [requestsTrack] at hr
  | some (.boolC true) => decide
  | some (.objC none) => simp [specFormTrack] at hf
  | some (.objC (some (.str s))) => simp [specFormTrack] at hf
  | some (.objC (some (.exact s))) =>
      simp [trackHash, truthyTrack, deviceIdOrNull, hashDeviceId]

/-! ## Audio lemmas -/

theorem foldl_add_eq_sum (x : ℚ) (xs : List ℚ) :
    xs.foldl (· + ·) x = x + xs.sum := by
  induction xs generalizing x with
  | nil => simp
  | cons y ys ih => simp [ih, add_assoc]

/-! ## Claim theorems -/

/-- C1 counterexample: with the two requests issued in the same millisecond
(`Date.now()` returns 5 for both R1 and R2), R2 (stream id 1) resolves first
and becomes current, but R1's late resolution also passes the
`lastInitTimestampRef.current === initTimestamp` check: it stops R2's stream
and commits R1's stream (id 0) as current — the final current stream is R1's,
R1's stream is exposed, and R2's stream is the one stopped, contradicting the
claim. -/
theorem lastRequestWins_counterexample :
    (mExec (raceTrace 5 5)).streamRef = some 0
  ∧ (mExec (raceTrace 5 5)).streamRef ≠ some 1
  ∧ 0 ∈ (mExec (raceTrace 5 5)).exposed
  ∧ stopCount (mExec (raceTrace 5 5)) 1 = 1 := by
  refine ⟨rfl, by decide, by decide, by decide⟩

/-- C1 (amended): provided the two overlapping requests receive distinct
issuance timestamps, last-request-wins holds: after R1 (timestamp `ts1`,
stream id 0) and R2 (timestamp `ts2`, stream id 1) overlap with R2 resolving
first, the final current stream is R2's, R1's stream is stopped exactly once
on its late arrival, and R1's stream is never exposed as current. -/
theorem lastRequestWins (ts1 ts2 : Nat) (h : ts1 ≠ ts2) :
    (mExec (raceTrace ts1 ts2)).streamRef = some 1
  ∧ stopCount (mExec (raceTrace ts1 ts2)) 0 = 1
  ∧ 0 ∉ (mExec (raceTrace ts1 ts2)).exposed
  ∧ 1 ∈ (mExec (raceTrace ts1 ts2)).exposed := by
  have e3 : mStep (mStep (mStep mInit (.run ts1 true)) .cleanup)
      (.run ts2 true) =
      { streamRef := none, lastInit := some ts2, nextId := 2,
        pending := [(ts2, 1), (ts1, 0)], acquired := [], stops := [],
        exposed := [] } := rfl
  have e4 : mStep (mStep (mStep (mStep mInit (.run ts1 true)) .cleanup)
      (.run ts2 true)) (.resolve ts2 1 true) =
      { streamRef := some 1, lastInit := some ts2, nextId := 2,
        pending := [(ts1, 0)], acquired := [1], stops := [],
        exposed := [1] } := by
    rw [e3, mStep_resolve_commit (List.mem_cons_self _ _) rfl,
      List.erase_cons_head]
  have hfinal : mExec (raceTrace ts1 ts2) =
      { streamRef := some 1, lastInit := some ts2, nextId := 2,
        pending := [], acquired := [0, 1], stops := [0], exposed := [1] } := by
    show mStep (mStep (mStep (mStep (mStep mInit (.run ts1 true)) .cleanup)
        (.run ts2 true)) (.resolve ts2 1 true)) (.resolve ts1 0 true) = _
    rw [e4, mStep_resolve_stale (List.mem_cons_self _ _)
      (fun heq => h (Option.some.inj heq).symm), List.erase_cons_head]
  rw [hfinal]
  refine ⟨rfl, by simp [stopCount], by simp, by simp⟩

/-- C1 witness: the amended last-request-wins theorem at timestamps 1 and 2. -/
theorem lastRequestWins_witness :
    (mExec (raceTrace 1 2)).streamRef = some 1
  ∧ stopCount (mExec (raceTrace 1 2)) 0 = 1
  ∧ 0 ∉ (mExec (raceTrace 1 2)).exposed
  ∧ 1 ∈ (mExec (raceTrace 1 2)).exposed :=
  lastRequestWins 1 2 (by decide)

/-- C2: over every event trace of one `useMediaStream` instance — any
sequence of effect runs (constraint changes, including to `null`), cleanups
(including repeated teardown) and promise resolutions — at most one acquired
stream is un-stopped at any time, no stream is ever stopped twice, every
acquired stream other than the current one has been stopped exactly once,
and teardown (`closeCurrentStream`) is idempotent: a second consecutive
cleanup changes nothing (hence never double-stops and never throws). -/
theorem streamLifecycleInvariant (t : List MEvent) :
    (∀ a ∈ (mExec t).acquired, ∀ b ∈ (mExec t).acquired,
        stopCount (mExec t) a = 0 → stopCount (mExec t) b = 0 → a = b)
  ∧ (∀ id, stopCount (mExec t) id ≤ 1)
  ∧ (∀ id ∈ (mExec t).acquired, (mExec t).streamRef ≠ some id →
        stopCount (mExec t) id = 1)
  ∧ mStep (mStep (mExec t) .cleanup) .cleanup = mStep (mExec t) .cleanup := by
  have h := mInv_mExec t
  refine ⟨?_, h.stop_le_one, ?_, ?_⟩
  · intro a ha b hb h0a h0b
    have ha' := h.active_is_cur a ha h0a
    have hb' := h.active_is_cur b hb h0b
    rw [ha'] at hb'
    exact Option.some.inj hb'
  · intro id hid hne
    have hle := h.stop_le_one id
    rcases Nat.eq_zero_or_pos (stopCount (mExec t) id) with h0 | hpos
    · exact absurd (h.active_is_cur id hid h0) hne
    · omega
  · show closeCurrentStream (closeCurrentStream (mExec t)) =
      closeCurrentStream (mExec t)
    rfl

/-- C2 witness: the invariant theorem applied to a concrete trace (acquire,
resolve, tear down): the acquired stream is stopped exactly once, and a
second teardown is a no-op. -/
theorem streamLifecycleInvariant_witness :
    stopCount (mExec [.run 1 true, .resolve 1 0 true, .cleanup]) 0 = 1
  ∧ mStep (mStep (mExec [.run 1 true, .resolve 1 0 true, .cleanup]) .cleanup)
      .cleanup =
    mStep (mExec [.run 1 true, .resolve 1 0 true, .cleanup]) .cleanup := by
  have h := streamLifecycleInvariant [.run 1 true, .resolve 1 0 true, .cleanup]
  exact ⟨h.2.2.1 0 (by decide) (by decide), h.2.2.2⟩

/-- C3 counterexample: stream id 0 is acquired and current with live tracks;
the constraints then change to a new equivalence class (cleanup + new effect
body at timestamp 2).  Contrary to the claim, at that moment — before the
new request resolves — the previously active stream is no longer current
(the ref is cleared) and its tracks have been stopped. -/
theorem previousStreamKept_counterexample :
    ¬ ((mExec (supersedeTrace 1 2)).streamRef = some 0
        ∧ stopCount (mExec (supersedeTrace 1 2)) 0 = 0)
  ∧ (mExec (supersedeTrace 1 2)).streamRef = none
  ∧ stopCount (mExec (supersedeTrace 1 2)) 0 = 1 := by
  refine ⟨by decide, rfl, by decide⟩

/-- C3 (amended): when the constraints change to a new equivalence class
while stream id 0 is active, the effect cleanup run at that moment stops the
active stream's tracks (exactly once) and clears the ref synchronously — the
manager then exposes no stream until the new request resolves, at which
point the new stream (id 1) becomes current. -/
theorem previousStreamStoppedOnChange (ts1 ts2 : Nat) :
    (mExec (supersedeTrace ts1 ts2)).streamRef = none
  ∧ stopCount (mExec (supersedeTrace ts1 ts2)) 0 = 1
  ∧ (mExec (supersedeTrace ts1 ts2 ++ [.resolve ts2 1 true])).streamRef =
      some 1 := by
  have e1 : mStep mInit (.run ts1 true) =
      { streamRef := none, lastInit := some ts1, nextId := 1,
        pending := [(ts1, 0)], acquired := [], stops := [],
        exposed := [] } := rfl
  have e2 : mStep (mStep mInit (.run ts1 true)) (.resolve ts1 0 true) =
      { streamRef := some 0, lastInit := some ts1, nextId := 1,
        pending := [], acquired := [0], stops := [], exposed := [0] } := by
    rw [e1, mStep_resolve_commit (List.mem_cons_self _ _) rfl,
      List.erase_cons_head]
  have e4 : mExec (supersedeTrace ts1 ts2) =
      { streamRef := none, lastInit := some ts2, nextId := 2,
        pending := [(ts2, 1)], acquired := [0], stops := [0],
        exposed := [0] } := by
    show mStep (mStep (mStep (mStep mInit (.run ts1 true))
        (.resolve ts1 0 true)) .cleanup) (.run ts2 true) = _
    rw [e2]
    rfl
  have e5 : mExec (supersedeTrace ts1 ts2 ++ [.resolve ts2 1 true]) =
      { streamRef := some 1, lastInit := some ts2, nextId := 2,
        pending := [], acquired := [1, 0], stops := [0],
        exposed := [1, 0] } := by
    show mStep (mExec (supersedeTrace ts1 ts2)) (.resolve ts2 1 true) = _
    rw [e4, mStep_resolve_commit (List.mem_cons_self _ _) rfl,
      List.erase_cons_head]
  rw [e4, e5]
  refine ⟨rfl, by simp [stopCount], rfl⟩

/-- C6: whenever the constraints become the "no stream" marker (`null`), the
effect cleanup and the `null`-constraints body run: any current stream is
stopped exactly once and the ref is synchronously cleared, without waiting
for in-flight requests; every `getUserMedia` resolution arriving afterwards
finds `lastInitTimestampRef.current === null`, so its stream is stopped
without ever being exposed as current (the exposed set does not grow), and
once all in-flight requests have settled every acquired stream has been
stopped exactly once.  The first conjunct justifies the trace shape: nulling
the constraints from any spec-form specification that requests a track
changes the `[audioIdHash, videoIdHash]` dependency pair, so React does run
the cleanup and the `null`-constraints body. -/
theorem nullConstraintsStopSync (t : List MEvent) (ts : Nat)
    (u : List MEvent) (hu : ∀ e ∈ u, e.isResolution = true) :
    (∀ a v : Option TrackConstraint, specFormTrack a → specFormTrack v →
       (requestsTrack a || requestsTrack v) = true →
       effectRerun (some { audio := a, video := v }) none = true)
  ∧ ((mExec (t ++ [.cleanup, .run ts false])).streamRef = none)
  ∧ (∀ id, (mExec t).streamRef = some id →
       stopCount (mExec (t ++ [.cleanup, .run ts false])) id = 1)
  ∧ ((mExec (t ++ [.cleanup, .run ts false] ++ u)).streamRef = none)
  ∧ ((mExec (t ++ [.cleanup, .run ts false] ++ u)).exposed =
       (mExec (t ++ [.cleanup, .run ts false])).exposed)
  ∧ (∀ id ∈ (mExec (t ++ [.cleanup, .run ts false] ++ u)).acquired,
       stopCount (mExec (t ++ [.cleanup, .run ts false] ++ u)) id = 1) := by
  have hinv := mInv_mExec t
  have hbase : mExec (t ++ [.cleanup, .run ts false]) =
      closeCurrentStream (closeCurrentStream (mExec t)) := by
    rw [mExec, List.foldl_append]
    rfl
  have hfull : mExec (t ++ [.cleanup, .run ts false] ++ u) =
      u.foldl mStep (mExec (t ++ [.cleanup, .run ts false])) := by
    rw [mExec, List.foldl_append]
    rfl
  have hpres := @resolves_foldl (mExec (t ++ [.cleanup, .run ts false]))
    (by rw [hbase]; rfl) u hu
  have hinvfull := mInv_mExec (t ++ [.cleanup, .run ts false] ++ u)
  refine ⟨?_, ?_, ?_, ?_, ?_, ?_⟩
  · intro a v ha hv hr
    have hone : trackHash a ≠ none ∨ trackHash v ≠ none := by
      rcases Bool.or_eq_true_iff.mp hr with hh | hh
      · exact Or.inl (trackHash_ne_none ha hh)
      · exact Or.inr (trackHash_ne_none hv hh)
    simp only [effectRerun, decide_eq_true_eq]
    intro hcontra
    simp only [hashDeviceIds, Prod.mk.injEq] at hcontra
    rcases hone with hh | hh
    · exact hh hcontra.1
    · exact hh hcontra.2
  · rw [hbase]; rfl
  · intro id hid
    rw [hbase]
    rw [stopCount_closeCurrent, stopCount_closeCurrent, if_pos hid]
    have h0 : stopCount (mExec t) id = 0 := hinv.cur_unstopped id hid
    have hnone : (closeCurrentStream (mExec t)).streamRef ≠ some id := by
      intro hcc
      exact Option.noConfusion hcc
    rw [if_neg hnone]
    omega
  · rw [hfull, hpres.1, hbase]; rfl
  · rw [hfull, hpres.2.2]
  · intro id hid
    have hcur : (mExec (t ++ [.cleanup, .run ts false] ++ u)).streamRef ≠
        some id := by
      rw [hfull, hpres.1, hbase]
      intro hcc
      exact Option.noConfusion hcc
    have hle := hinvfull.stop_le_one id
    rcases Nat.eq_zero_or_pos
        (stopCount (mExec (t ++ [.cleanup, .run ts false] ++ u)) id) with
      h0 | hpos
    · exact absurd (hinvfull.active_is_cur id hid h0) hcur
    · omega

/-- C6 witness: the theorem at the concrete scenario "mount with
constraints, the request is still in flight when the constraints become
`null`, then the request resolves": the ref stays empty, the late stream is
stopped once and never exposed. -/
theorem nullConstraintsStopSync_witness :
    ((mExec ([.run 1 true] ++ [.cleanup, .run 2 false])).streamRef = none)
  ∧ ((mExec ([.run 1 true] ++ [.cleanup, .run 2 false] ++
        [.resolve 1 0 true])).streamRef = none)
  ∧ stopCount (mExec ([.run 1 true] ++ [.cleanup, .run 2 false] ++
        [.resolve 1 0 true])) 0 = 1 := by
  have h := nullConstraintsStopSync [.run 1 true] 2 [.resolve 1 0 true]
    (by decide)
  exact ⟨h.2.1, h.2.2.2.1, h.2.2.2.2.2 0 (by decide)⟩

/-- C4: a recording started at `t0` that undergoes `n` stream replacements
while `isRecording` stays true, then ends when the flag becomes false,
yields a `RecordedMediaResult` whose `startTime` is still `t0` (the first
session's `start` event sets it; every later session is a resume and leaves
it untouched) and whose blob count is exactly `n + 1`: one artifact flushed
per replacement plus one at the final stop. -/
theorem resumePreservesStartTime (n t0 : Nat) :
    (stopRecording t0 n).result.startTime = some t0
  ∧ (stopRecording t0 n).result.blobs.length = n + 1 := by
  rw [stopRecording_result]
  constructor
  · rfl
  · simp

/-- C5 counterexample: the boolean constraint `audio: true` and the explicit
default-device descriptor `audio: \x7bdeviceId: "default"\x7d` select the same
effective device (the spec-side effective identifiers match), yet
`hashDeviceIds` maps them to different hashes (`"true"` versus `"default"`),
so switching between them re-runs the acquisition effect and issues a new
stream request — contradicting the claim. -/
theorem constraintEquivalence_counterexample :
    specEffectiveDeviceId (some (.boolC true)) =
      specEffectiveDeviceId (some (.objC (some (.str "default"))))
  ∧ hashDeviceIds audioTrueConstraints ≠ hashDeviceIds audioDefaultConstraints
  ∧ effectRerun audioTrueConstraints audioDefaultConstraints = true := by
  refine ⟨rfl, ?_, ?_⟩ <;> decide

/-- C5 (amended): the supersession key of `useMediaStream` is the derived
hash pair itself, not the effective device: two constraint specifications
are treated as equivalent (no effect re-run, hence no new stream request)
precisely when their `hashDeviceIds` values are equal.  A boolean constraint
derives the marker `"true"`, while an explicit default-device descriptor
derives `"default"`, so switching between them is NOT equivalence-preserving
and DOES issue a new stream acquisition request. -/
theorem constraintEquivalenceIsHashEquality :
    (∀ c1 c2 : Option MediaConstraints,
        hashDeviceIds c1 = hashDeviceIds c2 → effectRerun c1 c2 = false)
  ∧ hashDeviceIds audioTrueConstraints = (some "true", none)
  ∧ hashDeviceIds audioDefaultConstraints = (some "default", none)
  ∧ effectRerun audioTrueConstraints audioDefaultConstraints = true := by
  refine ⟨?_, by decide, by decide, by decide⟩
  intro c1 c2 hEq
  simp [effectRerun, hEq]

/-- C5 witness: two identically-hashed specifications (the same explicit
device) issue no new request, by the amended theorem. -/
theorem constraintEquivalenceIsHashEquality_witness :
    effectRerun audioDefaultConstraints audioDefaultConstraints = false :=
  constraintEquivalenceIsHashEquality.1 _ _ rfl

/-- C7: `elapsedTime` returns the all-zero view when there is no result or
no start marker; `useElapsedTime`'s state never changes on a tick when the
marker is absent, when `isRecording` is false, or when the update interval
is the `null` pause sentinel (in the latter two cases `useInterval`
schedules no callback at all, freezing the last computed view); and while
recording with a non-null interval and a (truthy) start marker, each tick
recomputes the view as `elapsedTime` of the result at the current time. -/
theorem elapsedTimeView (bs : List (List Nat)) (r : RecResult)
    (st : ElapsedView) (now t j : Nat) (i : Option Nat) (b : Bool)
    (ht : 0 < t) :
    elapsedTime none now = zeroView
  ∧ elapsedTime (some { startTime := none, blobs := bs }) now = zeroView
  ∧ elapsedTick { startTime := none, blobs := bs } b i st now = st
  ∧ elapsedTick r false i st now = st
  ∧ elapsedTick r b none st now = st
  ∧ elapsedTick { startTime := some t, blobs := bs } true (some j) st now =
      elapsedTime (some { startTime := some t, blobs := bs }) now := by
  obtain ⟨k, rfl⟩ : ∃ k, t = k + 1 := ⟨t - 1, by omega⟩
  refine ⟨rfl, rfl, ?_, ?_, ?_, ?_⟩
  · simp [elapsedTick, startTruthy]
  · simp [elapsedTick]
  · simp [elapsedTick]
  · simp [elapsedTick, startTruthy]

/-- C7 witness: the elapsed-time theorem at a concrete recording state. -/
theorem elapsedTimeView_witness :
    elapsedTime none 100 = zeroView
  ∧ elapsedTime (some { startTime := none, blobs := [] }) 100 = zeroView
  ∧ elapsedTick { startTime := none, blobs := [] } true (some 16)
      zeroView 100 = zeroView
  ∧ elapsedTick { startTime := some 40, blobs := [] } false (some 16)
      zeroView 100 = zeroView
  ∧ elapsedTick { startTime := some 40, blobs := [] } true none
      zeroView 100 = zeroView
  ∧ elapsedTick { startTime := some 40, blobs := [] } true (some 16)
      zeroView 100 =
      elapsedTime (some { startTime := some 40, blobs := [] }) 100 :=
  elapsedTimeView [] { startTime := some 40, blobs := [] } zeroView 100 40
    16 (some 16) true (by decide)

/-- C10: a `RecordedMediaResult` whose `startTime` is exactly 0 (a recording
that started precisely at the time origin) is indistinguishable from one
with no start marker: `elapsedTime` returns the all-zero view and a tick of
`useElapsedTime` never updates the state, because the JS guards
`!result.startTime` and `if (result.startTime)` test truthiness and the
number 0 is falsy. -/
theorem zeroStartTimeTreatedAsAbsent (bs : List (List Nat))
    (st : ElapsedView) (now : Nat) (b : Bool) (i : Option Nat) :
    elapsedTime (some { startTime := some 0, blobs := bs }) now = zeroView
  ∧ elapsedTick { startTime := some 0, blobs := bs } b i st now = st
  ∧ elapsedTime (some { startTime := some 0, blobs := bs }) now =
      elapsedTime (some { startTime := none, blobs := bs }) now := by
  refine ⟨rfl, ?_, rfl⟩
  simp [elapsedTick, startTruthy]

/-- C8: a tick of `useAudioLevel` never throws: with no analyser (audio
context not yet ready or no source) the reported level is 0; with an
analyser, for every byte frequency data array it can deliver (non-empty,
entries in [0, 255]) the level is `getVolume / 255`, a value in [0, 1]. -/
theorem audioLevelInRange (d : List ℚ) (ts : Nat) (hne : d ≠ [])
    (hbytes : ∀ x ∈ d, 0 ≤ x ∧ x ≤ 255) :
    audioLevelTick none ts = some (0, ts)
  ∧ ∃ lvl, audioLevelTick (some d) ts = some (lvl, ts) ∧
      0 ≤ lvl ∧ lvl ≤ 1 := by
  refine ⟨rfl, ?_⟩
  obtain ⟨x, xs, rfl⟩ := List.exists_cons_of_ne_nil hne
  have hsum : jsReduceAdd (x :: xs) = some (x + xs.sum) := by
    simp [jsReduceAdd, foldl_add_eq_sum]
  have hx := hbytes x (List.mem_cons_self _ _)
  have hxs0 : 0 ≤ xs.sum :=
    List.sum_nonneg (fun y hy => (hbytes y (List.mem_cons_of_mem _ hy)).1)
  have hlen : (0 : ℚ) < ((x :: xs).length : ℚ) := by
    have : 0 < (x :: xs).length := List.length_pos.mpr (by simp)
    exact_mod_cast this
  have hsumle : (x :: xs).sum ≤ ((x :: xs).length : ℚ) * 255 := by
    have := List.sum_le_card_nsmul (x :: xs) (255 : ℚ)
      (fun y hy => (hbytes y hy).2)
    rwa [nsmul_eq_mul] at this
  refine ⟨(x + xs.sum) / ((x :: xs).length : ℚ) / 255, ?_, ?_, ?_⟩
  · simp [audioLevelTick, getVolume, hsum]
  · have h1 : 0 ≤ x + xs.sum := by linarith [hx.1]
    positivity
  · rw [div_le_one (by norm_num : (0 : ℚ) < 255),
      div_le_iff₀ hlen]
    have : (x :: xs).sum = x + xs.sum := List.sum_cons
    linarith [hsumle, this.symm.le, this.le]

/-- C8 witness: the level theorem at the two-byte array [0, 255]. -/
theorem audioLevelInRange_witness :
    audioLevelTick none 7 = some (0, 7)
  ∧ ∃ lvl, audioLevelTick (some [0, 255]) 7 = some (lvl, 7) ∧
      0 ≤ lvl ∧ lvl ≤ 1 :=
  audioLevelInRange [0, 255] 7 (by decide) (by decide)

/-- C9: the device hooks degrade instead of raising.  The `useState`
initializer of `useMediaDevices` is the empty lists (empty before the first
successful enumeration); on enumeration failure the async body catches,
logs, and yields the empty lists rather than throwing; on success the lists
are the kind-filtered enumeration; and a failed
`navigator.permissions.query` settles the capability to `"unsupported"`
while a fulfilled one stores the reported state. -/
theorem deviceHooksDegrade (e1 e2 : String) (ds : List DeviceInfo)
    (st : PermValue) :
    emptyDeviceLists.audioInput = []
  ∧ emptyDeviceLists.videoInput = []
  ∧ emptyDeviceLists.audioOutput = []
  ∧ enumerationResult (.error e1) = (emptyDeviceLists, true)
  ∧ (enumerationResult (.ok ds)).1.audioInput =
      ds.filter (fun d => d.kind = "audioinput")
  ∧ (enumerationResult (.ok ds)).1.videoInput =
      ds.filter (fun d => d.kind = "videoinput")
  ∧ (enumerationResult (.ok ds)).1.audioOutput =
      ds.filter (fun d => d.kind = "audiooutput")
  ∧ permQuerySettle (.error e2) = .unsupported
  ∧ permQuerySettle (.ok st) = st :=
  ⟨rfl, rfl, rfl, rfl, rfl, rfl, rfl, rfl, rfl⟩

end ReactMediaHooks
